import Mathlib

/-!
Verification of the pgpool2 PCP client (`src/pgpool2/client.go`) against its
natural-language specification.

The Go source is shallowly embedded below.  Strings are modelled as Lean
`String` / `List Char`; Go `int` as `Int` (overflow of 64-bit arithmetic is
not exercised by any statement here); Go `float64` values produced by
`strconv.ParseFloat` are modelled as exact rationals (every concrete value
appearing in a theorem below, such as `0.5`, is exactly representable in
`float64`, so rounding never matters).  External collaborators (process
execution, the filesystem) are passed in explicitly as parameters, exactly at
the interface the Go code consumes them.
-/

namespace Pgpool2

/-! ### Go standard library: character and string helpers -/

/-- The set accepted by Go `unicode.IsSpace` (the White_Space property):
U+0009..U+000D, U+0020, U+0085, U+00A0, U+1680, U+2000..U+200A, U+2028,
U+2029, U+202F, U+205F, U+3000.  Used by `strings.TrimSpace` and
`strings.Fields`. -/
def goIsSpace (c : Char) : Bool :=
  decide ((9 ≤ c.toNat ∧ c.toNat ≤ 13) ∨ c.toNat = 32 ∨ c.toNat = 0x85 ∨ c.toNat = 0xa0 ∨
    c.toNat = 0x1680 ∨ (0x2000 ≤ c.toNat ∧ c.toNat ≤ 0x200a) ∨ c.toNat = 0x2028 ∨
    c.toNat = 0x2029 ∨ c.toNat = 0x202f ∨ c.toNat = 0x205f ∨ c.toNat = 0x3000)

/-- Go `strings.TrimSpace` on a character list: drop leading and trailing
whitespace. -/
def trimSpaceL (s : List Char) : List Char :=
  ((s.dropWhile goIsSpace).reverse.dropWhile goIsSpace).reverse

/-- Go `strings.TrimSpace` on a `String`. -/
def strTrimSpace (s : String) : String :=
  String.mk (trimSpaceL s.data)

/-- ASCII digit test, the character class `[0-9]`. -/
def isDigitCh (c : Char) : Bool :=
  decide (48 ≤ c.toNat ∧ c.toNat ≤ 57)

/-- Decimal value of a digit string (helper for `strconv` parsing). -/
def digitsToNat (l : List Char) : Nat :=
  l.foldl (fun n c => 10 * n + (c.toNat - 48)) 0

/-- Go `strconv.Atoi`: optional sign followed by one or more ASCII digits,
anything else is a parse error (`none`).  64-bit range overflow is not
modelled; no statement below exercises it. -/
def atoi (l : List Char) : Option Int :=
  match l with
  | [] => none
  | '+' :: rest =>
      if rest.isEmpty then none
      else if rest.all isDigitCh then some (digitsToNat rest : Int) else none
  | '-' :: rest =>
      if rest.isEmpty then none
      else if rest.all isDigitCh then some (-(digitsToNat rest : Int)) else none
  | _ =>
      if l.all isDigitCh then some (digitsToNat l : Int) else none

/-- Exact value of a decimal literal with integer digits `i`, fraction
digits `f` and decimal exponent `e`: `(i.f) * 10^e` as a rational
(`Rat.divInt` keeps this kernel-computable). -/
def floatValue (neg : Bool) (i f : List Char) (e : Int) : ℚ :=
  let m : Int := (digitsToNat (i ++ f) : Int)
  let m : Int := if neg then -m else m
  let fexp : Int := e - (f.length : Int)
  if 0 ≤ fexp then Rat.divInt (m * (10 : Int) ^ fexp.toNat) 1
  else Rat.divInt m ((10 : Int) ^ (-fexp).toNat)

/-- Exponent part of a Go float literal: empty (exponent 0), or `e`/`E`
followed by a signed digit string. -/
def parseExpVal : List Char → Option Int
  | [] => some 0
  | 'e' :: r => atoi r
  | 'E' :: r => atoi r
  | _ => none

/-- Unsigned body of a Go `strconv.ParseFloat` input:
`digits [. digits] [exponent]` or `. digits [exponent]`. -/
def parseFloatBody (neg : Bool) (l : List Char) : Option ℚ :=
  let i := l.takeWhile isDigitCh
  let r1 := l.dropWhile isDigitCh
  match r1 with
  | '.' :: r2 =>
      let f := r2.takeWhile isDigitCh
      let r3 := r2.dropWhile isDigitCh
      if i.isEmpty && f.isEmpty then none
      else (parseExpVal r3).map (floatValue neg i f)
  | _ => if i.isEmpty then none else (parseExpVal r1).map (floatValue neg i [])

/-- Go `strconv.ParseFloat` (decimal forms), with the value taken exactly as
a rational.  Binary rounding, hexadecimal floats, `Inf`/`NaN` names and
digit-group underscores are not modelled; no statement below relies on them
— the inputs exercised are plain decimals (accepted, exactly representable)
or non-numeric text (rejected by Go as well). -/
def parseFloatQ (l : List Char) : Option ℚ :=
  match l with
  | '+' :: r => parseFloatBody false r
  | '-' :: r => parseFloatBody true r
  | _ => parseFloatBody false l

/-- Does `s` start with `pat`?  (Go `strings.HasPrefix`.) -/
def strStartsWith : List Char → List Char → Bool
  | _, [] => true
  | [], _ :: _ => false
  | a :: as, b :: bs => a == b && strStartsWith as bs

/-- Does `s` contain `pat` as a contiguous substring?  (Go
`strings.Contains`.) -/
def lineContains : List Char → List Char → Bool
  | [], pat => strStartsWith [] pat
  | c :: rest, pat => strStartsWith (c :: rest) pat || lineContains rest pat

/-- Go `strings.Split(s, " ")`: split at every single space character;
consecutive spaces produce empty fields, and the result is never empty. -/
def splitOnSpace : List Char → List (List Char)
  | [] => [[]]
  | c :: rest =>
      if c = ' ' then [] :: splitOnSpace rest
      else
        match splitOnSpace rest with
        | [] => [[c]]
        | p :: ps => (c :: p) :: ps

/-- Go `strings.Fields`: the maximal runs of non-whitespace characters
(splitting around runs of `goIsSpace`, no empty fields). -/
def goFieldsAux (cur : List Char) : List Char → List (List Char)
  | [] => if cur.isEmpty then [] else [cur]
  | c :: rest =>
      if goIsSpace c then
        if cur.isEmpty then goFieldsAux [] rest else cur :: goFieldsAux [] rest
      else goFieldsAux (cur ++ [c]) rest

/-- Go `strings.Fields` entry point. -/
def goFields (s : List Char) : List (List Char) := goFieldsAux [] s

/-- Go `strconv.Itoa` (and the `%d` verb): decimal rendering of an integer. -/
def itoa (i : Int) : String := toString i

/-! ### Line framing: `bufio.Reader.ReadString('\n')` loops

Every decoder in the source reads lines with `reader.ReadString('\n')` and
`break`s as soon as the returned error is `io.EOF` — *before* looking at the
partially-read data.  Hence the stream is processed as the sequence of
newline-terminated lines, and an unterminated trailing fragment is dropped.
`linesAux acc s` is that reading loop: `acc` is the portion of the current
line read so far; it is discarded when the input ends without a newline. -/

def linesAux (acc : List Char) : List Char → List (List Char)
  | [] => []
  | c :: rest =>
      if c = '\n' then acc :: linesAux [] rest
      else linesAux (acc ++ [c]) rest

/-- The newline-terminated lines of a stream (contents without the
terminator); an unterminated trailing fragment is discarded, mirroring the
`ReadString`/`io.EOF` loop shape shared by all three decoders. -/
def linesNL (s : List Char) : List (List Char) := linesAux [] s

/-- `s` truncated just after its last newline (empty if `s` has no
newline). -/
def truncLastNL : List Char → List Char
  | [] => []
  | c :: cs =>
      match truncLastNL cs with
      | [] => if c = '\n' then ['\n'] else []
      | r => c :: r

/-! ### go-semver (`github.com/coreos/go-semver/semver`)

`Version()` feeds `semver.NewVersion` only strings produced by
`ExtractVersion`; any such string that parses successfully is a plain
`major.minor.patch` digit triple (see `newVersion` below), so the
pre-release and metadata components are always empty and are omitted from
the model. -/

structure Version where
  major : Int
  minor : Int
  patch : Int
deriving DecidableEq, Repr

/-- go-semver `recursiveCompare` on the `[major, minor, patch]` slices.
The `(_ :: _, [])` case is unreachable for the equal-length slices the
library passes. -/
def recursiveCompare : List Int → List Int → Int
  | [], _ => 0
  | a :: as, b :: bs =>
      if a > b then 1 else if a < b then -1 else recursiveCompare as bs
  | _ :: _, [] => 0

/-- go-semver `Compare` (pre-release components are empty here, so the
numeric slices decide). -/
def versionCompare (a b : Version) : Int :=
  recursiveCompare [a.major, a.minor, a.patch] [b.major, b.minor, b.patch]

/-- go-semver `LessThan`. -/
def versionLessThan (a b : Version) : Bool :=
  decide (versionCompare a b < 0)

/-- Split at the first `dot`, if any (helper for `strings.SplitN`). -/
def splitAtChar (dot : Char) : List Char → Option (List Char × List Char)
  | [] => none
  | c :: rest =>
      if c = dot then some ([], rest)
      else (splitAtChar dot rest).map (fun p => (c :: p.1, p.2))

/-- go-semver version-string parsing restricted to its behaviour on
`ExtractVersion` output: `strings.SplitN(s, ".", 3)` must yield three
parts and each must parse as a (nonnegative) integer.  Extracted strings
never carry `-`pre-release or `+`metadata suffixes in the successful case,
because the third dot-part is then a pure digit run. -/
def newVersion (s : String) : Option Version :=
  match splitAtChar '.' s.data with
  | none => none
  | some (p1, r1) =>
      match splitAtChar '.' r1 with
      | none => none
      | some (p2, p3) =>
          match atoi p1, atoi p2, atoi p3 with
          | some a, some b, some c => some ⟨a, b, c⟩
          | _, _, _ => none

/-! ### Constants of `client.go` -/

def PGPool : String := "pgpool"
def PCPNodeCount : String := "/usr/sbin/pcp_node_count"
def PCPNodeInfo : String := "/usr/sbin/pcp_node_info"
def PCPProcCount : String := "/usr/sbin/pcp_proc_count"
def PCPProcInfo : String := "/usr/sbin/pcp_proc_info"
def PCPWatchdogInfo : String := "/usr/sbin/pcp_watchdog_info"

def NodeStatusInitialization : String := "Initialization"
def NodeStatusUP1 : String := "Node is up. No connections yet"
def NodeStatusUP2 : String := "Node is up. Connections are pooled"
def NodeStatusDown : String := "Node is down"
def NodeStatusUnknown : String := "Unknown node status"

def QuorumStateUnknown : Int := -3
def QuorumStateNoMasterNode : Int := -2
def QuorumStateAbsent : Int := -1
def QuorumStateOnEdge : Int := 0
def QuorumStateExist : Int := 1

/-- `PGPoolPCPPassFileSince = semver.New("3.5.0")`. -/
def PGPoolPCPPassFileSince : Version := ⟨3, 5, 0⟩

/-- The `quorumStateToInt` map as a lookup function (`map[string]int` access
returns the value and an `ok` flag; `none` models `ok = false`). -/
def quorumStateToInt (s : String) : Option Int :=
  if s = "UNKNOWN" then some QuorumStateUnknown
  else if s = "NO MASTER NODE" then some QuorumStateNoMasterNode
  else if s = "QUORUM ABSENT" then some QuorumStateAbsent
  else if s = "QUORUM IS ON THE EDGE" then some QuorumStateOnEdge
  else if s = "QUORUM EXIST" then some QuorumStateExist
  else none

/-- The `nodeStatusToString` map as a lookup function. -/
def nodeStatusToString (i : Int) : Option String :=
  if i = 0 then some NodeStatusInitialization
  else if i = 1 then some NodeStatusUP1
  else if i = 2 then some NodeStatusUP2
  else if i = 3 then some NodeStatusDown
  else none

/-- `QuorumStateToCode` (client.go:476-481): map lookup with the unknown
sentinel as default. -/
def QuorumStateToCode (state : String) : Int :=
  match quorumStateToInt state with
  | some code => code
  | none => QuorumStateUnknown

/-- `NodeStatusCodeToString` (client.go:309-315). -/
def NodeStatusCodeToString (statusID : Int) : String :=
  match nodeStatusToString statusID with
  | some status => status
  | none => NodeStatusUnknown

/-- `IsSupportPCPPassFile` (client.go:109-118), applied to the resolved
version (the version-resolution step is modelled separately in
`clientVersionResult`). -/
def IsSupportPCPPassFile (version : Version) : Bool :=
  if versionLessThan version PGPoolPCPPassFileSince then false else true

/-! ### The version regexp `([0-9]+.[0-9]+.[0-9]+)`

The dots in `PGPoolVersionRegExp` are *unescaped*, so each matches any
character except newline.  Go's `regexp` (RE2) returns, for
`FindStringSubmatch`, the leftmost match, choosing among matches at that
position the one a Perl-style backtracking search would find: greedy `+`,
longer alternatives first.  The functions below implement exactly that
search for this fixed pattern `D+ A D+ A D+` (where `D = [0-9]` and `A` is
any non-newline character). -/

/-- Length of the maximal leading ASCII-digit run. -/
def digitRun : List Char → Nat
  | [] => 0
  | c :: cs => if isDigitCh c then digitRun cs + 1 else 0

/-- Match `A D+` at the head (the tail of the pattern after the second digit
run): one non-newline character, then a nonempty greedy digit run.  Returns
the number of characters consumed. -/
def matchTail2 : List Char → Option Nat
  | [] => none
  | a :: rest =>
      if a = '\n' then none
      else if digitRun rest = 0 then none
      else some (1 + digitRun rest)

/-- Backtracking over the second `D+`: try run lengths from `n` down to 1,
each followed by `matchTail2`. -/
def tryDAD : Nat → List Char → Option Nat
  | 0, _ => none
  | n + 1, s =>
      match matchTail2 (s.drop (n + 1)) with
      | some k => some (n + 1 + k)
      | none => tryDAD n s

/-- Match `D+ A D+` at the head (greedy, longest digit run first). -/
def matchDAD (s : List Char) : Option Nat := tryDAD (digitRun s) s

/-- Match `A D+ A D+` at the head. -/
def matchTailADAD : List Char → Option Nat
  | [] => none
  | a :: rest =>
      if a = '\n' then none
      else (matchDAD rest).map (· + 1)

/-- Backtracking over the first `D+`: try run lengths from `n` down to 1. -/
def tryFull : Nat → List Char → Option Nat
  | 0, _ => none
  | n + 1, s =>
      match matchTailADAD (s.drop (n + 1)) with
      | some k => some (n + 1 + k)
      | none => tryFull n s

/-- Match the whole pattern `D+ A D+ A D+` at the head; returns the length
of the (leftmost-first, greedy) match. -/
def matchPat (s : List Char) : Option Nat := tryFull (digitRun s) s

/-- Leftmost match of the pattern in `s`, as the matched substring. -/
def findMatch : List Char → Option (List Char)
  | [] => none
  | c :: cs =>
      match matchPat (c :: cs) with
      | some n => some ((c :: cs).take n)
      | none => findMatch cs

/-- `ExtractVersion` (client.go:144-150): first submatch of
`PGPoolVersionRegExp`, or the empty string when there is no match. -/
def ExtractVersion (line : String) : String :=
  match findMatch line.data with
  | some m => String.mk m
  | none => ""

/-! ### `PCPValueRegExp` value extraction

`ExtractValueFromPCPString` matches the anchored pattern `^[^:]+: (.*)$`:
one or more non-colon characters (so the split is at the *first* colon),
then `": "`, then the captured value, in which `.` cannot match a newline.
No match yields the empty string. -/

/-- `ExtractValueFromPCPString` (client.go:317-323). -/
def ExtractValueFromPCPString (line : List Char) : List Char :=
  match splitAtChar ':' line with
  | some (pre, ' ' :: v) =>
      if pre.isEmpty then [] else if v.contains '\n' then [] else v
  | _ => []

/-! ### Response decoders

Each decoder is the `ReadString('\n')` loop over `linesNL` with the Go loop
body applied per line.  A failed `strconv` conversion executes `continue`,
which abandons the *rest of the checks for that line* as well; the per-line
functions below are therefore chained, each later check living in the
continuation of the earlier ones. -/

structure NodeInfo where
  Hostname : String
  Port : Int
  StatusCode : Int
  Status : String
  Weight : ℚ
  Role : String
deriving DecidableEq, Repr

/-- `var ni NodeInfo`: the Go zero value. -/
def nodeInfoZero : NodeInfo := ⟨"", 0, 0, "", 0, ""⟩

/-- The `Role` check of the node-info loop body (client.go:366-368). -/
def nodeInfoRoleStep (ni : NodeInfo) (line : List Char) : NodeInfo :=
  if lineContains line "Role".data then
    { ni with Role := String.mk (ExtractValueFromPCPString line) }
  else ni

/-- The `Weight` check (client.go:358-365); a parse failure `continue`s,
skipping the `Role` check of the same line. -/
def nodeInfoWeightStep (ni : NodeInfo) (line : List Char) : NodeInfo :=
  if lineContains line "Weight".data then
    match parseFloatQ (ExtractValueFromPCPString line) with
    | none => ni
    | some w => nodeInfoRoleStep { ni with Weight := w } line
  else nodeInfoRoleStep ni line

/-- The `Status` check (client.go:349-357); a parse failure `continue`s. -/
def nodeInfoStatusStep (ni : NodeInfo) (line : List Char) : NodeInfo :=
  if lineContains line "Status".data then
    match atoi (ExtractValueFromPCPString line) with
    | none => ni
    | some st =>
        nodeInfoWeightStep
          { ni with StatusCode := st, Status := NodeStatusCodeToString st } line
  else nodeInfoWeightStep ni line

/-- The `Port` check (client.go:341-348); a parse failure `continue`s. -/
def nodeInfoPortStep (ni : NodeInfo) (line : List Char) : NodeInfo :=
  if lineContains line "Port".data then
    match atoi (ExtractValueFromPCPString line) with
    | none => ni
    | some p => nodeInfoStatusStep { ni with Port := p } line
  else nodeInfoStatusStep ni line

/-- One iteration of the node-info loop (client.go:337-368): trim the line,
then run the field checks in order. -/
def nodeInfoLine (ni : NodeInfo) (raw : List Char) : NodeInfo :=
  let line := trimSpaceL raw
  nodeInfoPortStep
    (if lineContains line "Hostname".data then
      { ni with Hostname := String.mk (ExtractValueFromPCPString line) }
    else ni)
    line

/-- `NodeInfoUnmarshal` (client.go:325-371).  Reading an in-memory buffer
can fail only with `io.EOF`, so the error return is always `nil` and is
omitted. -/
def NodeInfoUnmarshal (s : String) : NodeInfo :=
  (linesNL s.data).foldl nodeInfoLine nodeInfoZero

structure WatchdogInfo where
  TotalNodes : Int
  RemoteNodes : Int
  QuorumState : String
  QuorumStateCode : Int
  AliveRemoteNodes : Int
  VIP : Bool
deriving DecidableEq, Repr

/-- `var wi WatchdogInfo`: the Go zero value. -/
def watchdogInfoZero : WatchdogInfo := ⟨0, 0, "", 0, 0, false⟩

/-- The `VIP up on local node` check (client.go:524-529): sets the flag only
when the extracted value is exactly `"YES"`, and never resets it. -/
def watchdogVIPStep (wi : WatchdogInfo) (line : List Char) : WatchdogInfo :=
  if lineContains line "VIP up on local node".data then
    if ExtractValueFromPCPString line = "YES".data then { wi with VIP := true }
    else wi
  else wi

/-- The `Alive Remote Nodes` check (client.go:516-523); a parse failure
`continue`s. -/
def watchdogAliveStep (wi : WatchdogInfo) (line : List Char) : WatchdogInfo :=
  if lineContains line "Alive Remote Nodes".data then
    match atoi (ExtractValueFromPCPString line) with
    | none => wi
    | some n => watchdogVIPStep { wi with AliveRemoteNodes := n } line
  else watchdogVIPStep wi line

/-- The `Quorum state` check (client.go:512-515). -/
def watchdogQuorumStep (wi : WatchdogInfo) (line : List Char) : WatchdogInfo :=
  if lineContains line "Quorum state".data then
    let qs := String.mk (ExtractValueFromPCPString line)
    watchdogAliveStep
      { wi with QuorumState := qs, QuorumStateCode := QuorumStateToCode qs } line
  else watchdogAliveStep wi line

/-- The `Remote Nodes` check (client.go:504-511); note that a line holding
`Alive Remote Nodes` also contains the substring `Remote Nodes` and hence
passes this check too, exactly as in the source.  A parse failure
`continue`s. -/
def watchdogRemoteStep (wi : WatchdogInfo) (line : List Char) : WatchdogInfo :=
  if lineContains line "Remote Nodes".data then
    match atoi (ExtractValueFromPCPString line) with
    | none => wi
    | some n => watchdogQuorumStep { wi with RemoteNodes := n } line
  else watchdogQuorumStep wi line

/-- One iteration of the watchdog-info loop (client.go:495-529), beginning
with the `Total Nodes` check. -/
def watchdogInfoLine (wi : WatchdogInfo) (raw : List Char) : WatchdogInfo :=
  let line := trimSpaceL raw
  if lineContains line "Total Nodes".data then
    match atoi (ExtractValueFromPCPString line) with
    | none => wi
    | some n => watchdogRemoteStep { wi with TotalNodes := n } line
  else watchdogRemoteStep wi line

/-- `WatchdogInfoUnmarshal` (client.go:483-532). -/
def WatchdogInfoUnmarshal (s : String) : WatchdogInfo :=
  (linesNL s.data).foldl watchdogInfoLine watchdogInfoZero

structure ProcInfo where
  Database : String
  Username : String
  Connected : Bool
deriving DecidableEq, Repr

/-- One iteration of the process-info loop (client.go:552-563): trim, split
on single spaces, and accept the line only when it has exactly 13 fields. -/
def procInfoLine (pi : List ProcInfo) (raw : List Char) : List ProcInfo :=
  let line := trimSpaceL raw
  let connectionInfo := splitOnSpace line
  if connectionInfo.length = 13 then
    pi ++ [{ Database := String.mk (connectionInfo.getD 0 [])
             Username := String.mk (connectionInfo.getD 1 [])
             Connected := decide (connectionInfo.getD 12 [] = ['1']) }]
  else pi

/-- `ProcInfoUnmarshal` (client.go:540-566). -/
def ProcInfoUnmarshal (s : String) : List ProcInfo :=
  (linesNL s.data).foldl procInfoLine []

/-! ### Client construction and command invocation

External collaborators are explicit parameters:
* process execution `execCommand(cmd, env, arg...)` is a function
  `String → List String → List String → RunResult` (stdout, stderr, error);
* `os.Stat` is a function `String → StatRes`;
* `ioutil.TempFile`+`WriteString`+`Chmod` is a single `Except` outcome
  (failure of any of the three steps collapsed into one error message),
  succeeding with the generated file name. -/

structure Options where
  PassFile : String
  Hostname : String
  Port : Int
  Username : String
  Password : String
  Timeout : Int
deriving DecidableEq, Repr

structure Client where
  options : Options
  version : Option Version
  pcpPassFileSupport : Bool
  pcpPassFile : String
  pcpPassFileUser : Bool
  pcpPassTempFile : Option String
deriving DecidableEq, Repr

/-- Result of one external command execution: captured stdout and stderr
buffers and the error from `Run` (`none` means success). -/
structure RunResult where
  stdout : String
  stderr : String
  errMsg : Option String
deriving DecidableEq, Repr

/-- Outcome of `os.Stat`, with the distinctions `Validate` consumes. -/
inductive StatRes where
  | notExist
  | statErr (msg : String)
  | dir (mode : Nat)
  | file (mode : Nat)
deriving DecidableEq, Repr

/-- The environment a client construction runs in. -/
structure BuildEnv where
  exec2 : String → List String → List String → RunResult
  stat : String → StatRes
  tempFile : Except String String

/-- The distinct error exits of `NewClient` and its callees, one constructor
per `return`ed error in the source. -/
inductive CtorError where
  | versionExec (msg : String)
  | versionEmpty
  | versionExtract (fromString : String)
  | versionParse
  | hostnameMissing
  | usernameMissing
  | portNotPositive
  | passFileNotExist (path : String)
  | passFileStat (msg : String)
  | passFileIsDir
  | passFileBadMode (path : String) (mode : Nat)
  | passwordMissing
  | tempFileError (msg : String)
deriving DecidableEq, Repr

/-- Externally observable actions of a construction: commands handed to the
run collaborator, and transient credential files created. -/
inductive Event where
  | ranCommand (cmd : String) (env : List String) (args : List String)
  | createdTempFile (name : String) (content : String)
deriving DecidableEq, Repr

/-- `Version` (client.go:120-142) on a fresh client (the memoized field is
`nil` during construction, so the probe always runs): execute
`pgpool --version`, trim, extract, parse.  Note the binding
`_, bytesBuffer, err := c.execCommand(...)` at client.go:124: the version
text is taken from the *second* return of `execCommand`, the captured
stderr buffer (pgpool prints its `--version` banner to stderr), and the
stdout capture is discarded. -/
def clientVersionResult (env : BuildEnv) : Except CtorError Version :=
  let r := env.exec2 PGPool [] ["--version"]
  match r.errMsg with
  | some e => .error (.versionExec e)
  | none =>
      let resultString := strTrimSpace r.stderr
      if resultString = "" then .error .versionEmpty
      else
        let version := ExtractVersion resultString
        if version = "" then .error (.versionExtract resultString)
        else
          match newVersion version with
          | none => .error .versionParse
          | some v => .ok v

/-- The client state after lines 86-96 of `NewClient`: options stored, the
resolved version cached, and the caller-supplied pass file (if any)
recorded with `pcpPassFileUser = true`. -/
def initClient (options : Options) (v : Version) : Client :=
  { options := options
    version := some v
    pcpPassFileSupport := false
    pcpPassFile := if options.PassFile ≠ "" then options.PassFile else ""
    pcpPassFileUser := options.PassFile ≠ ""
    pcpPassTempFile := none }

/-- `Validate` (client.go:190-219).  On success the (possibly) mutated
client is returned: the pass-file branch sets `pcpPassFileUser := true`. -/
def Validate (stat : String → StatRes) (c : Client) : Except CtorError Client :=
  if c.options.Hostname = "" then .error .hostnameMissing
  else if c.options.Username = "" then .error .usernameMissing
  else if c.options.Port ≤ 0 then .error .portNotPositive
  else if c.pcpPassFile ≠ "" then
    match stat c.pcpPassFile with
    | .notExist => .error (.passFileNotExist c.pcpPassFile)
    | .statErr m => .error (.passFileStat m)
    | .dir _ => .error .passFileIsDir
    | .file mode =>
        if mode ≠ 0o600 then .error (.passFileBadMode c.pcpPassFile mode)
        else .ok { c with pcpPassFileUser := true }
  else if c.options.Password = "" then .error .passwordMissing
  else .ok c

/-- Content written to the generated pass file (client.go:160-166):
`hostname:port:username:password`. -/
def pcpTempContent (options : Options) : String :=
  options.Hostname ++ ":" ++ itoa options.Port ++ ":" ++
    options.Username ++ ":" ++ options.Password

/-- `NewClient` (client.go:85-107), returning the construction outcome
together with the trace of external actions.  Note the order of the source:
the version probe (`IsSupportPCPPassFile` → `Version`) runs *first*, then
the caller pass-file fields are set, then `Validate`, and only then (when
the capability is present) `createPCPTempFile` — which is a no-op for a
caller-owned file. -/
def NewClient (options : Options) (env : BuildEnv) :
    Except CtorError Client × List Event :=
  let probeEvents : List Event := [.ranCommand PGPool [] ["--version"]]
  match clientVersionResult env with
  | .error e => (.error e, probeEvents)
  | .ok v =>
      let ok := IsSupportPCPPassFile v
      let c := initClient options v
      match Validate env.stat c with
      | .error e => (.error e, probeEvents)
      | .ok c2 =>
          if ok then
            if c2.pcpPassFileUser then
              (.ok { c2 with pcpPassFileSupport := true }, probeEvents)
            else
              match env.tempFile with
              | .error m => (.error (.tempFileError m), probeEvents)
              | .ok name =>
                  (.ok { c2 with
                          pcpPassFileSupport := true
                          pcpPassFile := name
                          pcpPassTempFile := some name },
                   probeEvents ++ [.createdTempFile name (pcpTempContent options)])
          else (.ok c2, probeEvents)

/-- `Clean` (client.go:179-188), as the path it removes (`none`: removes
nothing): a caller-owned file is never removed; otherwise the recorded
temporary file, if one was created, is removed by name. -/
def Clean (c : Client) : Option String :=
  if c.pcpPassFileUser then none
  else
    match c.pcpPassTempFile with
    | none => none
    | some name => some name

/-- The name recorded by the first `createdTempFile` event of a trace. -/
def createdTempName : List Event → Option String
  | [] => none
  | .createdTempFile name _ :: _ => some name
  | _ :: rest => createdTempName rest

/-! ### Argument building and command execution (`execPCPCommand`) -/

/-- `strings.HasPrefix(ar, "-")`. -/
def argIsFlag (s : String) : Bool := strStartsWith s.data ['-']

/-- First loop of the positional branch (client.go:241-245): append the
flag-style caller arguments in order. -/
def appendDashArgs (acc : List String) : List String → List String
  | [] => acc
  | a :: rest =>
      if argIsFlag a then appendDashArgs (acc ++ [a]) rest
      else appendDashArgs acc rest

/-- Second loop of the positional branch (client.go:253-257): append the
non-flag caller arguments in order. -/
def appendNonDashArgs (acc : List String) : List String → List String
  | [] => acc
  | a :: rest =>
      if argIsFlag a then appendNonDashArgs acc rest
      else appendNonDashArgs (acc ++ [a]) rest

/-- The positional (legacy) argument vector (client.go:239-257): caller
flags, then `timeout hostname port username password`, then the remaining
caller arguments. -/
def buildPositionalArgs (options : Options) (arg : List String) : List String :=
  appendNonDashArgs
    (appendDashArgs [] arg ++
      [itoa options.Timeout, options.Hostname, itoa options.Port,
        options.Username, options.Password])
    arg

/-- The argument vector handed to the run collaborator (client.go:227-258):
file strategy when the capability is present, positional strategy
otherwise. -/
def buildPCPArgs (c : Client) (arg : List String) : List String :=
  if c.pcpPassFileSupport then
    ["--username=" ++ c.options.Username,
     "--host=" ++ c.options.Hostname,
     "--port=" ++ itoa c.options.Port,
     "--no-password"] ++ arg
  else buildPositionalArgs c.options arg

/-- The environment handed to the run collaborator (client.go:235-237): the
pass-file reference under the file strategy, empty otherwise. -/
def buildPCPEnv (c : Client) : List String :=
  if c.pcpPassFileSupport then ["PCPPASSFILE=" ++ c.pcpPassFile] else []

/-- `execPCPCommand` (client.go:221-264): build arguments and environment,
execute, and on failure wrap the execution error as
`"<err> (<TrimSpace(stdout)>)"` — the captured stderr buffer is discarded
by `stdOut, _, err := c.execCommand(...)`.  Returns the stdout buffer and
the (possibly wrapped) error. -/
def execPCPCommand (exec2 : String → List String → List String → RunResult)
    (c : Client) (cmd : String) (arg : List String) : String × Option String :=
  let argResult := buildPCPArgs c arg
  let env := buildPCPEnv c
  let r := exec2 cmd env argResult
  match r.errMsg with
  | some e => (r.stdout, some (e ++ " (" ++ strTrimSpace r.stdout ++ ")"))
  | none => (r.stdout, none)

/-! ### Specification-side predicates

These definitions follow the wording of the specification (and, for the
corrected claims, the amended wording); the theorems below relate them to
the code-derived definitions above. -/

/-- A nonempty ASCII-digit string. -/
def IsNum (l : List Char) : Prop := l ≠ [] ∧ ∀ c ∈ l, isDigitCh c = true

/-- `l` is exactly one instance of the loose pattern the source regexp
denotes: digits, any non-newline character, digits, any non-newline
character, digits. -/
def LoosePat (l : List Char) : Prop :=
  ∃ d1 a d2 b d3, l = d1 ++ a :: (d2 ++ b :: d3) ∧
    IsNum d1 ∧ IsNum d2 ∧ IsNum d3 ∧ a ≠ '\n' ∧ b ≠ '\n'

/-- `s` contains a loose-pattern substring somewhere. -/
def LooseIn (s : List Char) : Prop :=
  ∃ pre mid suf, s = pre ++ mid ++ suf ∧ LoosePat mid

/-- The claim's literal reading: `s` contains a substring of the shape
`N.N.N` — digits, an actual dot, digits, an actual dot, digits. -/
def ContainsNNN (s : String) : Prop :=
  ∃ pre d1 d2 d3 suf,
    s.data = pre ++ d1 ++ '.' :: (d2 ++ '.' :: (d3 ++ suf)) ∧
    IsNum d1 ∧ IsNum d2 ∧ IsNum d3

/-- The order the specification describes: strictly below version 3.5.0
(lexicographically on major, minor, patch). -/
def VersionBefore350 (v : Version) : Prop :=
  v.major < 3 ∨ (v.major = 3 ∧ (v.minor < 5 ∨ (v.minor = 5 ∧ v.patch < 0)))

/-- Per-line acceptance of the process-info decoder, written as the amended
claim states it: trim, split on single spaces, accept exactly the 13-field
lines, `Database` = field 0, `Username` = field 1, `Connected` iff field 12
is the literal `"1"`. -/
def procLineSpec (l : List Char) : Option ProcInfo :=
  let parts := splitOnSpace (trimSpaceL l)
  if parts.length = 13 then
    some { Database := String.mk (parts.getD 0 [])
           Username := String.mk (parts.getD 1 [])
           Connected := decide (parts.getD 12 [] = ['1']) }
  else none

/-- Join a list of (newline-free) lines into a newline-terminated stream. -/
def joinNL (ls : List (List Char)) : List Char :=
  ls.foldr (fun l acc => l ++ '\n' :: acc) []

/-! ## Theorems -/

theorem appendDashArgs_eq_filter (l : List String) :
    ∀ acc, appendDashArgs acc l = acc ++ l.filter argIsFlag := by
  induction l with
  | nil => intro acc; simp [appendDashArgs]
  | cons a rest ih =>
      intro acc
      by_cases h : argIsFlag a
      · simp [appendDashArgs, h, ih, List.filter_cons]
      · simp [appendDashArgs, h, ih, List.filter_cons]

theorem appendNonDashArgs_eq_filter (l : List String) :
    ∀ acc, appendNonDashArgs acc l = acc ++ l.filter (fun a => !argIsFlag a) := by
  induction l with
  | nil => intro acc; simp [appendNonDashArgs]
  | cons a rest ih =>
      intro acc
      by_cases h : argIsFlag a
      · simp [appendNonDashArgs, h, ih, List.filter_cons]
      · simp [appendNonDashArgs, h, ih, List.filter_cons]

/-- C5: under the positional (legacy) credential strategy the built argument
vector is exactly the caller's flag arguments in order, then the fixed
5-tuple `timeout, hostname, port, username, password`, then the caller's
non-flag arguments in order; in particular caller arguments `["-v", "42"]`
with timeout 5, host `"h"`, port 10, user `"u"`, pass `"p"` yield
`["-v", "5", "h", "10", "u", "p", "42"]`. -/
theorem c5_positional_argument_order :
    (∀ (options : Options) (arg : List String),
      buildPositionalArgs options arg =
        arg.filter argIsFlag ++
          [itoa options.Timeout, options.Hostname, itoa options.Port,
            options.Username, options.Password] ++
          arg.filter (fun a => !argIsFlag a)) ∧
    buildPositionalArgs ⟨"", "h", 10, "u", "p", 5⟩ ["-v", "42"] =
      ["-v", "5", "h", "10", "u", "p", "42"] := by
  constructor
  · intro options arg
    rw [buildPositionalArgs, appendNonDashArgs_eq_filter, appendDashArgs_eq_filter]
    simp [List.append_assoc]
  · rfl

/-- C6: the credentials-file capability gate is the pure threshold
comparison on the resolved version: `false` exactly for versions strictly
below 3.5.0, `true` otherwise, including the boundary 3.5.0 itself. -/
theorem c6_pass_file_threshold :
    (∀ v : Version, IsSupportPCPPassFile v = false ↔ VersionBefore350 v) ∧
    IsSupportPCPPassFile ⟨3, 5, 0⟩ = true := by
  constructor
  · intro v
    rcases v with ⟨ma, mi, pa⟩
    simp only [IsSupportPCPPassFile, versionLessThan, versionCompare, recursiveCompare,
      PGPoolPCPPassFileSince, VersionBefore350, decide_eq_true_eq]
    split_ifs <;> simp_all <;> omega
  · rfl

/-- C7: node-info decode of the block with lines `Hostname: db1`,
`Port: 5432`, `Status: 2`, `Weight: 0.5`, `Role: primary` yields exactly the
record the specification states, and a non-numeric `Port` or `Weight` value
leaves that field at its zero default while the remaining lines still
decode. -/
theorem c7_node_info_decode :
    NodeInfoUnmarshal "Hostname: db1\nPort: 5432\nStatus: 2\nWeight: 0.5\nRole: primary\n" =
      { Hostname := "db1", Port := 5432, StatusCode := 2,
        Status := "Node is up. Connections are pooled", Weight := Rat.divInt 1 2,
        Role := "primary" } ∧
    NodeInfoUnmarshal "Hostname: db1\nPort: abc\nStatus: 2\nWeight: x.y\nRole: primary\n" =
      { Hostname := "db1", Port := 0, StatusCode := 2,
        Status := "Node is up. Connections are pooled", Weight := 0,
        Role := "primary" } := by
  constructor
  · decide
  · decide

/-- C8: the quorum-label mapping is total and never fails: the five known
labels map to their codes and every other string maps to the unknown
sentinel `-3`. -/
theorem c8_quorum_mapping :
    QuorumStateToCode "QUORUM EXIST" = 1 ∧
    QuorumStateToCode "QUORUM IS ON THE EDGE" = 0 ∧
    QuorumStateToCode "QUORUM ABSENT" = -1 ∧
    QuorumStateToCode "NO MASTER NODE" = -2 ∧
    QuorumStateToCode "UNKNOWN" = -3 ∧
    ∀ s : String, s ≠ "QUORUM EXIST" → s ≠ "QUORUM IS ON THE EDGE" →
      s ≠ "QUORUM ABSENT" → s ≠ "NO MASTER NODE" → s ≠ "UNKNOWN" →
      QuorumStateToCode s = -3 := by
  refine ⟨by decide, by decide, by decide, by decide, by decide, ?_⟩
  intro s h1 h2 h3 h4 h5
  have hnone : quorumStateToInt s = none := by
    unfold quorumStateToInt
    rw [if_neg h5, if_neg h4, if_neg h3, if_neg h2, if_neg h1]
  simp [QuorumStateToCode, hnone, QuorumStateUnknown]

/-- Witness for C8: the unrecognized label `"NOT A LABEL"` maps to `-3`. -/
theorem c8_quorum_mapping_witness : QuorumStateToCode "NOT A LABEL" = -3 :=
  c8_quorum_mapping.2.2.2.2.2 "NOT A LABEL" (by decide) (by decide) (by decide)
    (by decide) (by decide)

theorem linesAux_cons_nl (acc rest : List Char) :
    linesAux acc ('\n' :: rest) = acc :: linesAux [] rest := by
  simp [linesAux]

theorem linesAux_cons_other (c : Char) (hc : c ≠ '\n') (acc rest : List Char) :
    linesAux acc (c :: rest) = linesAux (acc ++ [c]) rest := by
  simp [linesAux, hc]

theorem linesAux_truncLastNL : ∀ (s acc : List Char),
    linesAux acc s = linesAux acc (truncLastNL s) := by
  intro s
  induction s with
  | nil => intro acc; rfl
  | cons c cs ih =>
      intro acc
      rw [truncLastNL]
      cases htr : truncLastNL cs with
      | nil =>
          by_cases hc : c = '\n'
          · subst hc
            rw [if_pos rfl, linesAux_cons_nl, linesAux_cons_nl, ih [], htr]
          · rw [if_neg hc, linesAux_cons_other c hc, ih (acc ++ [c]), htr]
            rfl
      | cons r rs =>
          by_cases hc : c = '\n'
          · subst hc
            rw [linesAux_cons_nl, linesAux_cons_nl, ih [], htr]
          · rw [linesAux_cons_other c hc, linesAux_cons_other c hc,
              ih (acc ++ [c]), htr]

/-- C10: for each of the three line-oriented decoders, an input whose final
line lacks its terminating newline decodes exactly like the input truncated
after its last newline: the unterminated trailing fragment contributes no
fields and no rows. -/
theorem c10_unterminated_trailing_line_discarded (s : String) :
    NodeInfoUnmarshal s = NodeInfoUnmarshal (String.mk (truncLastNL s.data)) ∧
    WatchdogInfoUnmarshal s = WatchdogInfoUnmarshal (String.mk (truncLastNL s.data)) ∧
    ProcInfoUnmarshal s = ProcInfoUnmarshal (String.mk (truncLastNL s.data)) := by
  have h : linesNL s.data = linesNL (String.mk (truncLastNL s.data)).data :=
    linesAux_truncLastNL s.data []
  exact ⟨congrArg (List.foldl nodeInfoLine nodeInfoZero) h,
    congrArg (List.foldl watchdogInfoLine watchdogInfoZero) h,
    congrArg (List.foldl procInfoLine []) h⟩

theorem procInfoLine_spec (acc : List ProcInfo) (l : List Char) :
    procInfoLine acc l = acc ++ (procLineSpec l).toList := by
  unfold procInfoLine procLineSpec
  by_cases h : (splitOnSpace (trimSpaceL l)).length = 13
  · simp [h]
  · simp [h]

theorem foldl_procInfoLine (ls : List (List Char)) :
    ∀ acc, ls.foldl procInfoLine acc = acc ++ ls.filterMap procLineSpec := by
  induction ls with
  | nil => intro acc; simp
  | cons l rest ih =>
      intro acc
      rw [List.foldl_cons, ih, procInfoLine_spec, List.filterMap_cons]
      cases procLineSpec l <;> simp

theorem linesAux_append_line : ∀ (l : List Char), '\n' ∉ l →
    ∀ (acc rest : List Char),
      linesAux acc (l ++ '\n' :: rest) = (acc ++ l) :: linesAux [] rest := by
  intro l
  induction l with
  | nil =>
      intro _ acc rest
      rw [List.nil_append, linesAux_cons_nl, List.append_nil]
  | cons c cs ih =>
      intro hl acc rest
      have hc : c ≠ '\n' := fun h => hl (by simp [h])
      have hcs : '\n' ∉ cs := fun h => hl (List.mem_cons_of_mem c h)
      rw [List.cons_append, linesAux_cons_other c hc, ih hcs (acc ++ [c]) rest,
        List.append_assoc]
      rfl

theorem linesNL_joinNL : ∀ (ls : List (List Char)), (∀ l ∈ ls, '\n' ∉ l) →
    linesNL (joinNL ls) = ls := by
  intro ls
  induction ls with
  | nil => intro _; rfl
  | cons l rest ih =>
      intro h
      have hl : '\n' ∉ l := h l (List.mem_cons_self l rest)
      show linesAux [] (l ++ '\n' :: joinNL rest) = l :: rest
      rw [linesAux_append_line l hl [] (joinNL rest)]
      simp only [List.nil_append]
      exact congrArg (l :: ·) (ih fun x hx => h x (List.mem_cons_of_mem l hx))

/-- C4 (amended): the process-info decoder accepts exactly the
newline-terminated lines whose trimmed text splits *on single space
characters* into exactly 13 fields (consecutive spaces yield empty fields;
tabs are not separators), silently skipping every other line; each accepted
line yields `Database` = field 0, `Username` = field 1, and `Connected`
true iff field 12 is the literal `"1"`. -/
theorem c4_proc_info_space_split (ls : List (List Char)) (h : ∀ l ∈ ls, '\n' ∉ l) :
    ProcInfoUnmarshal (String.mk (joinNL ls)) = ls.filterMap procLineSpec := by
  unfold ProcInfoUnmarshal
  rw [show (String.mk (joinNL ls)).data = joinNL ls from rfl, linesNL_joinNL ls h,
    foldl_procInfoLine]
  rfl

/-- Witness for C4: a 13-field line is decoded into its record, a
non-13-field line is skipped. -/
theorem c4_proc_info_space_split_witness :
    ProcInfoUnmarshal
        (String.mk (joinNL ["db1 u1 a b c d e f g h i j 1".data, "not thirteen".data])) =
      [{ Database := "db1", Username := "u1", Connected := true }] := by
  rw [c4_proc_info_space_split _ (by decide)]
  decide

/-- Counterexample for C4: a line of 13 *whitespace*-separated fields
(tab-delimited) is nevertheless skipped by the decoder, because the source
splits on single space characters only — refuting the claim that exactly the
13-whitespace-field lines are accepted. -/
theorem c4_counterexample :
    (goFields "a\tb\tc\td\te\tf\tg\th\ti\tj\tk\tl\tm".data).map String.mk =
      ["a", "b", "c", "d", "e", "f", "g", "h", "i", "j", "k", "l", "m"] ∧
    ProcInfoUnmarshal "a\tb\tc\td\te\tf\tg\th\ti\tj\tk\tl\tm\n" = [] := by
  exact ⟨by decide, by decide⟩

/-- Counterexample for C1: on a failed execution the returned error wraps
the *trimmed stdout*, not the trimmed stderr — here stdout and stderr
differ and the wrapped text is the stdout one. -/
theorem c1_counterexample :
    (execPCPCommand
        (fun _ _ _ => { stdout := "  output diagnostic  ", stderr := "stderr diagnostic",
                        errMsg := some "exit status 1" })
        { options := { PassFile := "", Hostname := "h", Port := 9898, Username := "u",
                       Password := "p", Timeout := 10 },
          version := none, pcpPassFileSupport := true, pcpPassFile := "/tmp/f",
          pcpPassFileUser := false, pcpPassTempFile := none }
        PCPNodeCount []).2 = some "exit status 1 (output diagnostic)" ∧
    some "exit status 1 (output diagnostic)" ≠
      some ("exit status 1" ++ " (" ++ strTrimSpace "stderr diagnostic" ++ ")") := by
  exact ⟨rfl, by decide⟩

/-- C1 (amended): for every failed execution, the error returned by
`execPCPCommand` wraps the original execution error together with the
captured standard-*output* text trimmed of surrounding whitespace (the
captured stderr buffer is discarded). -/
theorem c1_error_wraps_trimmed_stdout
    (exec2 : String → List String → List String → RunResult) (c : Client)
    (cmd : String) (arg : List String) (e : String)
    (h : (exec2 cmd (buildPCPEnv c) (buildPCPArgs c arg)).errMsg = some e) :
    (execPCPCommand exec2 c cmd arg).2 =
      some (e ++ " (" ++
        strTrimSpace (exec2 cmd (buildPCPEnv c) (buildPCPArgs c arg)).stdout ++ ")") := by
  simp [execPCPCommand, h]

/-- Witness for C1's amended theorem at a concrete failing run. -/
theorem c1_error_wraps_trimmed_stdout_witness :
    (execPCPCommand (fun _ _ _ => { stdout := " out ", stderr := "err", errMsg := some "boom" })
        { options := { PassFile := "", Hostname := "h", Port := 1, Username := "u",
                       Password := "p", Timeout := 10 },
          version := none, pcpPassFileSupport := false, pcpPassFile := "",
          pcpPassFileUser := false, pcpPassTempFile := none }
        "cmd" []).2 = some ("boom" ++ " (" ++ strTrimSpace " out " ++ ")") :=
  c1_error_wraps_trimmed_stdout _ _ "cmd" [] "boom" rfl

/-- Counterexample for C2: on a configuration-invalid `Options` (empty
hostname) the claim says no run-collaborator invocation happens, but the
construction trace contains the version-probe invocation. -/
theorem c2_counterexample :
    NewClient
        { PassFile := "", Hostname := "", Port := 1, Username := "u", Password := "p",
          Timeout := 0 }
        { exec2 := fun _ _ _ =>
            { stdout := "", stderr := "pgpool-II version 3.7.1", errMsg := none },
          stat := fun _ => .notExist, tempFile := .ok "/tmp/pcppass" } =
      (.error .hostnameMissing, [.ranCommand PGPool [] ["--version"]]) ∧
    ([Event.ranCommand PGPool [] ["--version"]] : List Event) ≠ [] := by
  exact ⟨rfl, by decide⟩

/-- C2 (amended): for every configuration-invalid `Options`, provided the
version probe succeeds, construction fails with the corresponding
configuration error — but the probe is executed *before* validation, so
exactly one run-collaborator invocation (the version probe) occurs even on
such inputs. -/
theorem c2_validation_after_probe (options : Options) (env : BuildEnv) (v : Version)
    (e : CtorError) (hv : clientVersionResult env = .ok v)
    (he : Validate env.stat (initClient options v) = .error e) :
    NewClient options env = (.error e, [.ranCommand PGPool [] ["--version"]]) := by
  simp [NewClient, hv, he]

/-- Witness for C2's amended theorem: empty hostname, probe succeeding. -/
theorem c2_validation_after_probe_witness :
    NewClient
        { PassFile := "", Hostname := "", Port := 5, Username := "u", Password := "p",
          Timeout := 0 }
        { exec2 := fun _ _ _ =>
            { stdout := "", stderr := "pgpool-II version 3.4.0", errMsg := none },
          stat := fun _ => .notExist, tempFile := .ok "/tmp/x" } =
      (.error .hostnameMissing, [.ranCommand PGPool [] ["--version"]]) :=
  c2_validation_after_probe _ _ ⟨3, 4, 0⟩ _ rfl rfl

theorem Validate_ok_cases (stat : String → StatRes) (c c' : Client)
    (h : Validate stat c = .ok c') :
    c' = c ∨ c' = { c with pcpPassFileUser := true } := by
  unfold Validate at h
  repeat' split at h
  all_goals
    first
      | (injection h with h'; exact Or.inl h'.symm)
      | (injection h with h'; exact Or.inr h'.symm)
      | exact absurd h (by simp)

/-- C9: `Clean` removes the transient credentials file iff the client
itself created it — for every successfully constructed client, the path
removed by `Clean` is exactly the temp file recorded by the construction
trace (none when none was created), and a caller-owned credentials file is
never removed. -/
theorem c9_clean_iff_created (options : Options) (env : BuildEnv) (c : Client)
    (evs : List Event) (h : NewClient options env = (.ok c, evs)) :
    Clean c = createdTempName evs ∧ (c.pcpPassFileUser = true → Clean c = none) := by
  unfold NewClient at h
  cases hv : clientVersionResult env with
  | error e => rw [hv] at h; simp at h
  | ok v =>
      rw [hv] at h
      dsimp only at h
      cases hval : Validate env.stat (initClient options v) with
      | error e => rw [hval] at h; simp at h
      | ok c2 =>
          rw [hval] at h
          dsimp only at h
          have hshape := Validate_ok_cases env.stat (initClient options v) c2 hval
          have htemp : c2.pcpPassTempFile = none := by
            rcases hshape with h2 | h2 <;> rw [h2] <;> rfl
          by_cases hok : IsSupportPCPPassFile v = true
          · rw [if_pos hok] at h
            by_cases huser : c2.pcpPassFileUser = true
            · rw [if_pos huser] at h
              simp only [Prod.mk.injEq, Except.ok.injEq] at h
              obtain ⟨hc, hevs⟩ := h
              subst hc; subst hevs
              refine ⟨?_, fun _ => ?_⟩ <;> simp [Clean, createdTempName, huser]
            · rw [if_neg huser] at h
              cases htf : env.tempFile with
              | error m => rw [htf] at h; simp at h
              | ok name =>
                  rw [htf] at h
                  simp only [Prod.mk.injEq, Except.ok.injEq] at h
                  obtain ⟨hc, hevs⟩ := h
                  subst hc; subst hevs
                  have huser' : c2.pcpPassFileUser = false := by
                    simpa using huser
                  constructor
                  · simp [Clean, createdTempName, huser']
                  · intro habs
                    simp only [huser'] at habs
                    cases habs
          · rw [if_neg hok] at h
            simp only [Prod.mk.injEq, Except.ok.injEq] at h
            obtain ⟨hc, hevs⟩ := h
            subst hc; subst hevs
            constructor
            · by_cases huser : c2.pcpPassFileUser
              · simp [Clean, createdTempName, huser]
              · simp [Clean, createdTempName, huser, htemp]
            · intro huser
              simp [Clean, huser]

/-- Witness for C9: a password-only client on a capable pooler creates a
temp file under a name the environment chose, and `Clean` removes exactly
that file. -/
theorem c9_clean_iff_created_witness :
    Clean
        { options := { PassFile := "", Hostname := "h", Port := 9898, Username := "u",
                       Password := "p", Timeout := 10 },
          version := some ⟨3, 7, 1⟩, pcpPassFileSupport := true,
          pcpPassFile := "/tmp/pcp123", pcpPassFileUser := false,
          pcpPassTempFile := some "/tmp/pcp123" } =
      createdTempName [.ranCommand PGPool [] ["--version"],
        .createdTempFile "/tmp/pcp123" "h:9898:u:p"] ∧
    (({ options := { PassFile := "", Hostname := "h", Port := 9898, Username := "u",
                     Password := "p", Timeout := 10 },
        version := some ⟨3, 7, 1⟩, pcpPassFileSupport := true,
        pcpPassFile := "/tmp/pcp123", pcpPassFileUser := false,
        pcpPassTempFile := some "/tmp/pcp123" } : Client).pcpPassFileUser = true →
      Clean { options := { PassFile := "", Hostname := "h", Port := 9898, Username := "u",
                           Password := "p", Timeout := 10 },
              version := some ⟨3, 7, 1⟩, pcpPassFileSupport := true,
              pcpPassFile := "/tmp/pcp123", pcpPassFileUser := false,
              pcpPassTempFile := some "/tmp/pcp123" } = none) :=
  c9_clean_iff_created
    { PassFile := "", Hostname := "h", Port := 9898, Username := "u", Password := "p",
      Timeout := 10 }
    { exec2 := fun _ _ _ =>
        { stdout := "", stderr := "pgpool-II version 3.7.1", errMsg := none },
      stat := fun _ => .notExist, tempFile := .ok "/tmp/pcp123" }
    _ _ rfl

theorem digitRun_le_length : ∀ s : List Char, digitRun s ≤ s.length := by
  intro s
  induction s with
  | nil => exact Nat.le_refl 0
  | cons c cs ih =>
      by_cases hc : isDigitCh c
      · simp [digitRun, hc]; omega
      · simp [digitRun, hc]

theorem digitRun_append_ge : ∀ (d : List Char), (∀ c ∈ d, isDigitCh c = true) →
    ∀ t, d.length ≤ digitRun (d ++ t) := by
  intro d
  induction d with
  | nil => intro _ t; exact Nat.zero_le _
  | cons c cs ih =>
      intro h t
      have hc : isDigitCh c = true := h c (List.mem_cons_self c cs)
      have := ih (fun x hx => h x (List.mem_cons_of_mem c hx)) t
      simp [digitRun, hc]
      omega

theorem take_digitRun_digits : ∀ (s : List Char) (k : Nat), k ≤ digitRun s →
    ∀ c ∈ s.take k, isDigitCh c = true := by
  intro s
  induction s with
  | nil => intro k _ c hc; simp at hc
  | cons x xs ih =>
      intro k hk c hc
      cases k with
      | zero => simp at hc
      | succ kk =>
          have hx : isDigitCh x = true := by
            by_cases hd : isDigitCh x
            · exact hd
            · rw [digitRun, if_neg hd] at hk; omega
          rw [digitRun, if_pos hx] at hk
          rw [List.take_succ_cons] at hc
          rcases List.mem_cons.mp hc with hcx | hcs
          · rw [hcx]; exact hx
          · exact ih kk (by omega) c hcs

theorem matchTail2_eq_some (a : Char) (rest : List Char) (ha : a ≠ '\n')
    (hr : 1 ≤ digitRun rest) :
    matchTail2 (a :: rest) = some (1 + digitRun rest) := by
  have h0 : ¬ digitRun rest = 0 := by omega
  simp [matchTail2, ha, h0]

theorem matchTail2_some_inv (t : List Char) (j : Nat) (h : matchTail2 t = some j) :
    ∃ a rest, t = a :: rest ∧ a ≠ '\n' ∧ 1 ≤ digitRun rest ∧ j = 1 + digitRun rest := by
  cases t with
  | nil => simp [matchTail2] at h
  | cons a rest =>
      by_cases ha : a = '\n'
      · simp [matchTail2, ha] at h
      · by_cases h0 : digitRun rest = 0
        · simp [matchTail2, ha, h0] at h
        · simp only [matchTail2, if_neg ha, if_neg h0, Option.some.injEq] at h
          exact ⟨a, rest, rfl, ha, by omega, h.symm⟩

theorem tryDAD_succ : ∀ (n : Nat) (s : List Char) (k : Nat), 1 ≤ k → k ≤ n →
    matchTail2 (s.drop k) ≠ none → tryDAD n s ≠ none := by
  intro n
  induction n with
  | zero => intro s k h1 h2 _; omega
  | succ m ih =>
      intro s k h1 h2 hm
      cases hx : matchTail2 (s.drop (m + 1)) with
      | some j => simp [tryDAD, hx]
      | none =>
          have hk : k ≤ m := by
            by_cases he : k = m + 1
            · exact absurd hx (he ▸ hm)
            · omega
          simp only [tryDAD, hx]
          exact ih s k h1 hk hm

theorem tryDAD_some_inv : ∀ (n : Nat) (s : List Char) (m : Nat), tryDAD n s = some m →
    ∃ k j, 1 ≤ k ∧ k ≤ n ∧ matchTail2 (s.drop k) = some j ∧ m = k + j := by
  intro n
  induction n with
  | zero => intro s m h; simp [tryDAD] at h
  | succ p ih =>
      intro s m h
      cases hx : matchTail2 (s.drop (p + 1)) with
      | some j =>
          simp only [tryDAD, hx, Option.some.injEq] at h
          exact ⟨p + 1, j, by omega, Nat.le_refl _, hx, h.symm⟩
      | none =>
          simp only [tryDAD, hx] at h
          obtain ⟨k, j, h1, h2, h3, h4⟩ := ih s m h
          exact ⟨k, j, h1, by omega, h3, h4⟩

theorem matchTailADAD_eq_some (a : Char) (rest : List Char) (ha : a ≠ '\n') (j : Nat)
    (h : matchDAD rest = some j) : matchTailADAD (a :: rest) = some (j + 1) := by
  simp [matchTailADAD, ha, h]

theorem matchTailADAD_some_inv (t : List Char) (j : Nat)
    (h : matchTailADAD t = some j) :
    ∃ a rest j2, t = a :: rest ∧ a ≠ '\n' ∧ matchDAD rest = some j2 ∧ j = j2 + 1 := by
  cases t with
  | nil => simp [matchTailADAD] at h
  | cons a rest =>
      by_cases ha : a = '\n'
      · simp [matchTailADAD, ha] at h
      · simp only [matchTailADAD, if_neg ha] at h
        cases hd : matchDAD rest with
        | none => rw [hd] at h; simp at h
        | some j2 =>
            rw [hd] at h
            simp only [Option.map_some', Option.some.injEq] at h
            exact ⟨a, rest, j2, rfl, ha, hd, h.symm⟩

theorem tryFull_succ : ∀ (n : Nat) (s : List Char) (k : Nat), 1 ≤ k → k ≤ n →
    matchTailADAD (s.drop k) ≠ none → tryFull n s ≠ none := by
  intro n
  induction n with
  | zero => intro s k h1 h2 _; omega
  | succ m ih =>
      intro s k h1 h2 hm
      cases hx : matchTailADAD (s.drop (m + 1)) with
      | some j => simp [tryFull, hx]
      | none =>
          have hk : k ≤ m := by
            by_cases he : k = m + 1
            · exact absurd hx (he ▸ hm)
            · omega
          simp only [tryFull, hx]
          exact ih s k h1 hk hm

theorem tryFull_some_inv : ∀ (n : Nat) (s : List Char) (m : Nat), tryFull n s = some m →
    ∃ k j, 1 ≤ k ∧ k ≤ n ∧ matchTailADAD (s.drop k) = some j ∧ m = k + j := by
  intro n
  induction n with
  | zero => intro s m h; simp [tryFull] at h
  | succ p ih =>
      intro s m h
      cases hx : matchTailADAD (s.drop (p + 1)) with
      | some j =>
          simp only [tryFull, hx, Option.some.injEq] at h
          exact ⟨p + 1, j, by omega, Nat.le_refl _, hx, h.symm⟩
      | none =>
          simp only [tryFull, hx] at h
          obtain ⟨k, j, h1, h2, h3, h4⟩ := ih s m h
          exact ⟨k, j, h1, by omega, h3, h4⟩

theorem matchDAD_of_parts (d2 : List Char) (b : Char) (d3 t : List Char)
    (h2 : IsNum d2) (h3 : IsNum d3) (hb : b ≠ '\n') :
    matchDAD (d2 ++ b :: (d3 ++ t)) ≠ none := by
  have hk2 : 1 ≤ d2.length := List.length_pos.mpr h2.1
  have hk2' : d2.length ≤ digitRun (d2 ++ b :: (d3 ++ t)) :=
    digitRun_append_ge d2 h2.2 _
  have hd3 : 1 ≤ digitRun (d3 ++ t) := by
    have := digitRun_append_ge d3 h3.2 t
    have hlen : 1 ≤ d3.length := List.length_pos.mpr h3.1
    omega
  have hmt : matchTail2 ((d2 ++ b :: (d3 ++ t)).drop d2.length) =
      some (1 + digitRun (d3 ++ t)) := by
    rw [List.drop_left d2 (b :: (d3 ++ t))]
    exact matchTail2_eq_some b _ hb hd3
  exact tryDAD_succ _ _ d2.length hk2 hk2' (by rw [hmt]; simp)

theorem matchPat_of_loose (d1 : List Char) (a : Char) (d2 : List Char) (b : Char)
    (d3 t : List Char) (h1 : IsNum d1) (h2 : IsNum d2) (h3 : IsNum d3)
    (ha : a ≠ '\n') (hb : b ≠ '\n') :
    matchPat (d1 ++ a :: (d2 ++ b :: (d3 ++ t))) ≠ none := by
  have hk1 : 1 ≤ d1.length := List.length_pos.mpr h1.1
  have hk1' : d1.length ≤ digitRun (d1 ++ a :: (d2 ++ b :: (d3 ++ t))) :=
    digitRun_append_ge d1 h1.2 _
  have hDAD := matchDAD_of_parts d2 b d3 t h2 h3 hb
  have hmt : matchTailADAD ((d1 ++ a :: (d2 ++ b :: (d3 ++ t))).drop d1.length) ≠
      none := by
    rw [List.drop_left d1 (a :: (d2 ++ b :: (d3 ++ t)))]
    cases hd : matchDAD (d2 ++ b :: (d3 ++ t)) with
    | none => exact absurd hd hDAD
    | some j => rw [matchTailADAD_eq_some a _ ha j hd]; simp
  exact tryFull_succ _ _ d1.length hk1 hk1' hmt

theorem matchPat_some_loose (s : List Char) (m : Nat) (h : matchPat s = some m) :
    ∃ mid suf, s = mid ++ suf ∧ LoosePat mid ∧ mid.length = m := by
  obtain ⟨k, j, hk1, hk2, hmt, hm⟩ := tryFull_some_inv (digitRun s) s m h
  obtain ⟨a, rest, j2, hdrop, ha, hDAD, hj⟩ := matchTailADAD_some_inv _ j hmt
  obtain ⟨k2, j3, hk21, hk22, hmt2, hj2⟩ := tryDAD_some_inv (digitRun rest) rest j2 hDAD
  obtain ⟨b, rest2, hdrop2, hb, hd3run, hj3⟩ := matchTail2_some_inv _ j3 hmt2
  have hkle : k ≤ s.length := le_trans hk2 (digitRun_le_length s)
  have hk2le : k2 ≤ rest.length := le_trans hk22 (digitRun_le_length rest)
  have hdr2le : digitRun rest2 ≤ rest2.length := digitRun_le_length rest2
  refine ⟨s.take k ++ a :: (rest.take k2 ++ b :: rest2.take (digitRun rest2)),
    rest2.drop (digitRun rest2), ?_, ?_, ?_⟩
  · calc s = s.take k ++ s.drop k := (List.take_append_drop k s).symm
      _ = s.take k ++ (a :: rest) := by rw [hdrop]
      _ = s.take k ++ (a :: (rest.take k2 ++ rest.drop k2)) := by
            rw [List.take_append_drop]
      _ = s.take k ++ (a :: (rest.take k2 ++ (b :: rest2))) := by rw [hdrop2]
      _ = s.take k ++ (a :: (rest.take k2 ++
            (b :: (rest2.take (digitRun rest2) ++ rest2.drop (digitRun rest2))))) := by
            rw [List.take_append_drop]
      _ = (s.take k ++ a :: (rest.take k2 ++ b :: rest2.take (digitRun rest2))) ++
            rest2.drop (digitRun rest2) := by simp [List.append_assoc]
  · refine ⟨s.take k, a, rest.take k2, b, rest2.take (digitRun rest2), rfl,
      ⟨?_, take_digitRun_digits s k hk2⟩,
      ⟨?_, take_digitRun_digits rest k2 hk22⟩,
      ⟨?_, take_digitRun_digits rest2 (digitRun rest2) (Nat.le_refl _)⟩, ha, hb⟩
    · have : (s.take k).length = k := by rw [List.length_take]; omega
      intro hemp
      rw [hemp] at this
      simp at this
      omega
    · have : (rest.take k2).length = k2 := by rw [List.length_take]; omega
      intro hemp
      rw [hemp] at this
      simp at this
      omega
    · have : (rest2.take (digitRun rest2)).length = digitRun rest2 := by
        rw [List.length_take]; omega
      intro hemp
      rw [hemp] at this
      simp at this
      omega
  · simp only [List.length_append, List.length_cons, List.length_take]
    omega

theorem findMatch_of_matchPat : ∀ (pre rest : List Char), matchPat rest ≠ none →
    findMatch (pre ++ rest) ≠ none := by
  intro pre
  induction pre with
  | nil =>
      intro rest h
      cases rest with
      | nil => exact absurd rfl h
      | cons c cs =>
          rw [List.nil_append]
          cases hx : matchPat (c :: cs) with
          | none => exact absurd hx h
          | some n => simp [findMatch, hx]
  | cons p ps ih =>
      intro rest h
      rw [List.cons_append]
      cases hx : matchPat (p :: (ps ++ rest)) with
      | some n => simp [findMatch, hx]
      | none =>
          simp only [findMatch, hx]
          exact ih rest h

theorem findMatch_some_inv : ∀ (s v : List Char), findMatch s = some v →
    ∃ pre rest m, s = pre ++ rest ∧ matchPat rest = some m ∧ v = rest.take m := by
  intro s
  induction s with
  | nil => intro v h; simp [findMatch] at h
  | cons c cs ih =>
      intro v h
      cases hx : matchPat (c :: cs) with
      | some n =>
          simp only [findMatch, hx, Option.some.injEq] at h
          exact ⟨[], c :: cs, n, rfl, hx, h.symm⟩
      | none =>
          simp only [findMatch, hx] at h
          obtain ⟨pre, rest, m, heq, hp, hv⟩ := ih v h
          exact ⟨c :: pre, rest, m, by rw [heq]; rfl, hp, hv⟩

theorem loosePat_ne_nil (v : List Char) (h : LoosePat v) : v ≠ [] := by
  obtain ⟨d1, a, d2, b, d3, heq, _, _, _, _, _⟩ := h
  intro hv
  rw [hv] at heq
  have := congrArg List.length heq
  simp at this
  omega

theorem looseIn_of_findMatch (s v : List Char) (h : findMatch s = some v) :
    LooseIn s ∧ LoosePat v := by
  obtain ⟨pre, rest, m, heq, hp, hv⟩ := findMatch_some_inv s v h
  obtain ⟨mid, suf, hrest, hmid, hlen⟩ := matchPat_some_loose rest m hp
  have hvm : v = mid := by
    rw [hv, hrest, ← hlen, List.take_left]
  constructor
  · exact ⟨pre, mid, suf, by rw [heq, hrest, List.append_assoc], hmid⟩
  · rw [hvm]; exact hmid

theorem findMatch_of_looseIn (s : List Char) (h : LooseIn s) : findMatch s ≠ none := by
  obtain ⟨pre, mid, suf, heq, hmid⟩ := h
  obtain ⟨d1, a, d2, b, d3, hmid', h1, h2, h3, ha, hb⟩ := hmid
  have heq2 : s = pre ++ (d1 ++ a :: (d2 ++ b :: (d3 ++ suf))) := by
    rw [heq, hmid']
    simp [List.append_assoc]
  rw [heq2]
  exact findMatch_of_matchPat pre _ (matchPat_of_loose d1 a d2 b d3 suf h1 h2 h3 ha hb)

/-- C3 (amended): the dots of `PGPoolVersionRegExp` are unescaped, so they
match any character except newline.  Extraction returns the empty string
exactly when the input contains no substring of the loose shape
digits·any-char·digits·any-char·digits; a nonempty result is always itself
of that loose shape (the leftmost-first greedy match), and on inputs whose
only loose match is a literal `N.N.N` — such as the specification's own
example — the literal substring is returned. -/
theorem c3_extract_version_loose :
    (∀ s : String, ExtractVersion s = "" ↔ ¬ LooseIn s.data) ∧
    (∀ s : String, ExtractVersion s ≠ "" → LoosePat (ExtractVersion s).data) ∧
    ExtractVersion "pgpool-II version 3.7.1 (some codename)" = "3.7.1" := by
  refine ⟨?_, ?_, by rfl⟩
  · intro s
    constructor
    · intro hempty hin
      cases hf : findMatch s.data with
      | none => exact findMatch_of_looseIn s.data hin hf
      | some v =>
          have hv : ExtractVersion s = String.mk v := by
            rw [ExtractVersion, hf]
          have hvnil : v = [] := by
            have := hv ▸ hempty
            exact congrArg String.data this
          exact loosePat_ne_nil v (looseIn_of_findMatch s.data v hf).2 hvnil
    · intro hnotin
      cases hf : findMatch s.data with
      | none => rw [ExtractVersion, hf]
      | some v =>
          exact absurd (looseIn_of_findMatch s.data v hf).1 hnotin
  · intro s hne
    cases hf : findMatch s.data with
    | none =>
        exact absurd (by rw [ExtractVersion, hf]) hne
    | some v =>
        have hv : ExtractVersion s = String.mk v := by
          rw [ExtractVersion, hf]
        rw [hv]
        exact (looseIn_of_findMatch s.data v hf).2

/-- Counterexample for C3: `"1x2y3"` contains no substring of the literal
shape `N.N.N` (it has no dot at all), yet `ExtractVersion` returns
`"1x2y3"` rather than the empty string. -/
theorem c3_counterexample :
    ExtractVersion "1x2y3" = "1x2y3" ∧ ¬ ContainsNNN "1x2y3" := by
  constructor
  · rfl
  · intro hcon
    obtain ⟨pre, d1, d2, d3, suf, heq, _, _, _⟩ := hcon
    have hdot : '.' ∈ "1x2y3".data := by
      rw [heq]
      simp
    exact absurd hdot (by decide)

end Pgpool2
